import Mathlib

/-!
Shallow embedding of the EnactProtocol security library
(field selector, signing service, crypto wrapper, PEM codec, key store)
together with proofs about the claims of the specification.

External cryptography (secp256k1 verification, SHA-256, public-key
derivation) is modelled by explicit oracle parameters; everything else
is translated directly from the TypeScript source.
-/

/- ## Character and string utilities (JS string primitives) -/

/-- Whitespace characters matched by the JS regex backslash-s class
(the ones that can occur in PEM text). -/
def isWsChar (c : Char) : Bool :=
  c = ' ' || c = '\t' || c = '\n' || c = '\r' || c = '\x0b' || c = '\x0c'

/-- Model of `.replace(/\s+/g, '')`: remove every whitespace character. -/
def stripWs (l : List Char) : List Char :=
  l.filter (fun c => !isWsChar c)

/-- Model of JS `String.prototype.trim`: drop whitespace from both
ends. -/
def trimStr (s : String) : String :=
  String.mk (((s.toList.dropWhile isWsChar).reverse.dropWhile isWsChar).reverse)

/-- Does `pat` occur at the head of `s`? -/
def prefixMatch : List Char → List Char → Bool
  | [], _ => true
  | _ :: _, [] => false
  | a :: as, b :: bs => a == b && prefixMatch as bs

/-- Model of JS `String.prototype.replace(pattern, '')` with a plain string
pattern: remove the first occurrence of `pat`, leave the string unchanged
when there is none. -/
def replaceFirst (pat : List Char) : List Char → List Char
  | [] => []
  | c :: rest =>
    if prefixMatch pat (c :: rest) then (c :: rest).drop pat.length
    else c :: replaceFirst pat rest

/-- Model of JS `String.prototype.indexOf` for a plain string pattern:
index of the first occurrence, `none` when JS would return `-1`. -/
def strFind (pat : List Char) : List Char → Option Nat
  | [] => if pat.isEmpty then some 0 else none
  | c :: rest =>
    if prefixMatch pat (c :: rest) then some 0
    else (strFind pat rest).map (· + 1)

/-- Model of JS `String.prototype.substring(a, b)` for `a ≤ b`
(both clamped to the string length, as in JS). -/
def jsSubstring (l : List Char) (a b : Nat) : List Char :=
  (l.drop a).take (b - a)

/-- Fuel-driven worker for `chunks64`; the fuel is an upper bound on the
input length, so the exhausted-fuel branch is never reached in practice. -/
def chunksAux : Nat → List Char → List (List Char)
  | _, [] => []
  | 0, l => [l]
  | fuel + 1, l => l.take 64 :: chunksAux fuel (l.drop 64)

/-- Model of `base64Key.match(/.{1,64}/g) || []`: split into runs of at
most 64 characters (the empty string gives the empty list). -/
def chunks64 (l : List Char) : List (List Char) :=
  chunksAux l.length l

/-- Model of `Array.prototype.join('\n')`. -/
def joinNL : List (List Char) → List Char
  | [] => []
  | [l] => l
  | l :: ls => l ++ '\n' :: joinNL ls

/- ## Hex codec (noble `hexToBytes` / `bytesToHex`) -/

def lowerHexChars : List Char := "0123456789abcdef".toList

def upperHexChars : List Char := "0123456789ABCDEF".toList

/-- Value of one hex digit; case-insensitive, `none` on a non-hex
character (noble throws there). -/
def hexDigitVal? (c : Char) : Option Nat :=
  match List.indexOf? c lowerHexChars with
  | some i => some i
  | none => List.indexOf? c upperHexChars

/-- Lower-case hex digit of a value below 16. -/
def toHexChar (n : Nat) : Char :=
  lowerHexChars.getD n '0'

/-- Worker of the noble `hexToBytes`: parse a character list two digits a
byte; an odd length or a non-hex character is an error (noble throws). -/
def hexPairsToBytes : List Char → Except String (List Nat)
  | [] => Except.ok []
  | [_] => Except.error "hex string expected, got odd length"
  | c1 :: c2 :: rest =>
    match hexDigitVal? c1, hexDigitVal? c2 with
    | some h, some l => (hexPairsToBytes rest).map (fun bs => (h * 16 + l) :: bs)
    | _, _ => Except.error "hex string expected, got non-hex character"

/-- Model of noble `hexToBytes`. -/
def hexToBytesE (s : String) : Except String (List Nat) :=
  hexPairsToBytes s.toList

/-- Model of noble `bytesToHex` (character-list form). -/
def bytesToHexChars (l : List Nat) : List Char :=
  l.flatMap (fun b => [toHexChar (b / 16), toHexChar (b % 16)])

/-- Is this character a lower-case hex digit? -/
def isLHex (c : Char) : Bool :=
  lowerHexChars.contains c

/-- Numeric value of a hex character list, as computed by
`BigInt('0x' + s)` on the valid lower-case hex strings that reach it. -/
def hexNatOf (l : List Char) : Nat :=
  l.foldl (fun acc c => acc * 16 + (hexDigitVal? c).getD 0) 0

/- ## Base64 codec (models `btoa` and `atob` on padded input) -/

def b64Chars : List Char :=
  "ABCDEFGHIJKLMNOPQRSTUVWXYZabcdefghijklmnopqrstuvwxyz0123456789+/".toList

/-- Character of one sextet. -/
def encC (n : Nat) : Char :=
  b64Chars.getD n 'A'

/-- Sextet of one base64 character, `none` when the character is not in
the alphabet (`atob` throws there). -/
def decC (c : Char) : Option Nat :=
  List.indexOf? c b64Chars

/-- Model of `btoa` over a byte list. -/
def b64Encode : List Nat → List Char
  | [] => []
  | [a] => [encC (a / 4), encC (a % 4 * 16), '=', '=']
  | [a, b] => [encC (a / 4), encC (a % 4 * 16 + b / 16), encC (b % 16 * 4), '=']
  | a :: b :: c :: rest =>
    encC (a / 4) :: encC (a % 4 * 16 + b / 16) :: encC (b % 16 * 4 + c / 64)
      :: encC (c % 64) :: b64Encode rest

/-- Model of `atob` on padded base64 text: four characters give three
bytes, the final group may carry one or two padding characters. -/
def b64Decode : List Char → Option (List Nat)
  | [] => some []
  | c1 :: c2 :: c3 :: c4 :: rest =>
    if c3 = '=' ∧ c4 = '=' ∧ rest = [] then
      match decC c1, decC c2 with
      | some a, some b => some [a * 4 + b / 16]
      | _, _ => none
    else if c4 = '=' ∧ rest = [] then
      match decC c1, decC c2, decC c3 with
      | some a, some b, some c => some [a * 4 + b / 16, b % 16 * 16 + c / 4]
      | _, _, _ => none
    else
      match decC c1, decC c2, decC c3, decC c4, b64Decode rest with
      | some a, some b, some c, some d, some tl =>
        some ((a * 4 + b / 16) :: (b % 16 * 16 + c / 4) :: (c % 4 * 64 + d) :: tl)
      | _, _, _, _, _ => none
  | _ => none

/- ## JSON values and documents -/

/-- Dynamic JSON-like value of a document field (numbers are modelled as
integers; the signing service treats values opaquely). -/
inductive JValue where
  | null : JValue
  | bool : Bool → JValue
  | num : Int → JValue
  | str : String → JValue
  | arr : List JValue → JValue
  | obj : List (String × JValue) → JValue

/-- Wire shape of a signature: `signature` and `publicKey` are hex
strings; `publicKey = none` models a `null`, `undefined` or non-string
value (the code treats those alike through its `typeof` guard). -/
structure Signature where
  signature : String
  publicKey : Option String
  algorithm : String
  timestamp : Int
  deriving BEq, DecidableEq, Repr

/-- A document: `fields` is the open string-indexed view consumed by the
field selector (`document[fieldName]`), and `signatures` is the typed
view of the record's `signatures` property consumed by `verifyDocument`
(`none` models an absent or null property). -/
structure EnactDocument where
  fields : List (String × JValue)
  signatures : Option (List Signature)

/-- Property lookup `document[fieldName]`; `none` models `undefined`. -/
def getValue (document : EnactDocument) (name : String) : Option JValue :=
  (document.fields.find? (fun p => p.1 == name)).map (fun p => p.2)

/-- Emptiness test of `FieldSelector.isEmpty` on a present value:
null, empty string, empty array, or object with zero keys. -/
def isEmptyVal : JValue → Bool
  | JValue.null => true
  | JValue.str s => s == ""
  | JValue.arr l => l.isEmpty
  | JValue.obj l => l.isEmpty
  | _ => false

/-- Combined `!document.hasOwnProperty(f) || isEmpty(document[f])` test:
in this model a property is owned exactly when the lookup is `some`. -/
def missingOrEmpty (document : EnactDocument) (name : String) : Bool :=
  match getValue document name with
  | none => true
  | some v => isEmptyVal v

/-- JSON string escaping of `JSON.stringify`: quote, backslash, the
named control escapes, and `\u00XX` for other control characters. -/
def escapeJsonChar (c : Char) : List Char :=
  if c = '"' then ['\\', '"']
  else if c = '\\' then ['\\', '\\']
  else if c = '\x08' then ['\\', 'b']
  else if c = '\t' then ['\\', 't']
  else if c = '\n' then ['\\', 'n']
  else if c = '\x0c' then ['\\', 'f']
  else if c = '\r' then ['\\', 'r']
  else if c.toNat < 32 then
    ['\\', 'u', '0', '0', toHexChar (c.toNat / 16), toHexChar (c.toNat % 16)]
  else [c]

def escapeJson (s : String) : String :=
  String.mk (s.toList.flatMap escapeJsonChar)

mutual

/-- Model of `JSON.stringify` on a document value (integral numbers). -/
def stringifyV : JValue → String
  | JValue.null => "null"
  | JValue.bool b => if b then "true" else "false"
  | JValue.num n => toString n
  | JValue.str s => "\"" ++ escapeJson s ++ "\""
  | JValue.arr l => "[" ++ stringifyArr l ++ "]"
  | JValue.obj l => "\x7b" ++ stringifyFields l ++ "\x7d"

/-- Comma-joined serialization of array elements. -/
def stringifyArr : List JValue → String
  | [] => ""
  | [v] => stringifyV v
  | v :: vs => stringifyV v ++ "," ++ stringifyArr vs

/-- Comma-joined serialization of object entries, in insertion order. -/
def stringifyFields : List (String × JValue) → String
  | [] => ""
  | [(k, v)] => "\"" ++ escapeJson k ++ "\":" ++ stringifyV v
  | (k, v) :: rest => "\"" ++ escapeJson k ++ "\":" ++ stringifyV v ++ "," ++ stringifyFields rest

end

/-- Serialization of the canonical object, `JSON.stringify(canonicalDocument)`. -/
def stringifyObj (l : List (String × JValue)) : String :=
  stringifyV (JValue.obj l)

/- ## Field configuration and selector (`fieldConfig.ts`) -/

structure FieldConfig where
  name : String
  required : Bool
  securityCritical : Bool
  deriving BEq, DecidableEq, Repr

/-- `ENACT_DEFAULT_CRITICAL_FIELDS` (descriptions omitted). -/
def enactDefaultCriticalFields : List FieldConfig :=
  [ ⟨"annotations", false, true⟩
  , ⟨"command", true, true⟩
  , ⟨"description", true, true⟩
  , ⟨"enact", false, true⟩
  , ⟨"env", false, true⟩
  , ⟨"from", false, true⟩
  , ⟨"inputSchema", false, true⟩
  , ⟨"name", true, true⟩
  , ⟨"timeout", false, true⟩
  , ⟨"version", false, true⟩ ]

/-- `GENERIC_DEFAULT_FIELDS`. -/
def genericDefaultFields : List FieldConfig :=
  [ ⟨"id", true, true⟩
  , ⟨"content", true, true⟩
  , ⟨"timestamp", true, true⟩
  , ⟨"metadata", false, false⟩ ]

structure SigningFieldOptions where
  includeFields : Option (List String)
  excludeFields : Option (List String)
  additionalCriticalFields : Option (List String)
  customFieldConfig : Option (List FieldConfig)
  deriving Repr

/-- Code-unit comparison of character lists, as the default JS sort
comparator orders strings. -/
def listLe : List Char → List Char → Bool
  | [], _ => true
  | _ :: _, [] => false
  | a :: as, b :: bs =>
    if a.toNat < b.toNat then true
    else if b.toNat < a.toNat then false
    else listLe as bs

/-- String order used by the field-name sort. -/
def strLe (a b : String) : Bool :=
  listLe a.toList b.toList

/-- Insertion into a sorted run, modelling one step of a stable string
sort. -/
def insertSorted (s : String) : List String → List String
  | [] => [s]
  | t :: ts => if strLe s t then s :: t :: ts else t :: insertSorted s ts

/-- Model of `Array.prototype.sort()` on field names (default comparator:
ascending code-unit order, which on these names is the string order). -/
def sortStrings (l : List String) : List String :=
  l.foldr insertSorted []

/-- JS object property assignment `o[k] = v`: update in place when the
key is present, append otherwise. -/
def objInsert (l : List (String × JValue)) (k : String) (v : JValue) :
    List (String × JValue) :=
  if l.any (fun p => p.1 == k) then
    l.map (fun p => if p.1 == k then (k, v) else p)
  else l ++ [(k, v)]

/-- Fields selected for signing: `includeFields` when given, otherwise the
security-critical names of the active configuration plus
`additionalCriticalFields`; then minus `excludeFields`. -/
def fieldsToIncludeFor (activeConfig : List FieldConfig)
    (options : SigningFieldOptions) : List String :=
  let base : List String :=
    match options.includeFields with
    | some l => l
    | none =>
      ((activeConfig.filter (fun c => c.securityCritical)).map (fun c => c.name))
        ++ options.additionalCriticalFields.getD []
  base.filter (fun f => !((options.excludeFields.getD []).contains f))

/-- Error text of `validateRequiredFields` (quotes around the name are
dropped in this model). -/
def requiredFieldError (name : String) : String :=
  "Required field " ++ name ++ " is missing or empty"

/-- `FieldSelector.validateRequiredFields`: the first required field that
is selected but missing or empty raises. -/
def validateRequiredFields (document : EnactDocument)
    (config : List FieldConfig) (fieldsToInclude : List String) :
    Except String Unit :=
  let requiredFieldsToInclude :=
    (config.filter (fun f => f.required && fieldsToInclude.contains f.name)).map
      (fun f => f.name)
  match requiredFieldsToInclude.find? (fun r => missingOrEmpty document r) with
  | some r => Except.error (requiredFieldError r)
  | none => Except.ok ()

/-- `FieldSelector.createCanonicalObject`: select fields, validate
required ones, then build the canonical object over the sorted names,
keeping only non-empty present values. -/
def createCanonicalObject (instanceConfig : List FieldConfig)
    (document : EnactDocument) (options : SigningFieldOptions) :
    Except String (List (String × JValue)) :=
  let activeConfig := options.customFieldConfig.getD instanceConfig
  let fieldsToInclude := fieldsToIncludeFor activeConfig options
  match validateRequiredFields document activeConfig fieldsToInclude with
  | Except.error e => Except.error e
  | Except.ok _ =>
    Except.ok ((sortStrings fieldsToInclude).foldl
      (fun canonical fieldName =>
        match getValue document fieldName with
        | some value =>
          if isEmptyVal value then canonical else objInsert canonical fieldName value
        | none => canonical)
      [])

/- ## Security configuration (`types.ts`, `securityConfigManager.ts`) -/

/-- `SecurityConfig` with optional fields, as in the interface; `none`
models an absent (or undefined) property. -/
structure SecurityConfig where
  allowLocalUnsigned : Option Bool
  minimumSignatures : Option Nat
  deriving BEq, DecidableEq, Repr

/-- `DEFAULT_SECURITY_CONFIG`. -/
def defaultSecurityConfig : SecurityConfig :=
  ⟨some true, some 1⟩

/-- Object spread `{ ...base, ...override }` on two configs: a property
present on the override wins. -/
def mergeConfig (base override : SecurityConfig) : SecurityConfig :=
  ⟨override.allowLocalUnsigned <|> base.allowLocalUnsigned,
   override.minimumSignatures <|> base.minimumSignatures⟩

/-- `SigningOptions` of the signing service. -/
structure SigningOptions where
  algorithm : Option String
  useEnactDefaults : Option Bool
  includeFields : Option (List String)
  excludeFields : Option (List String)
  additionalCriticalFields : Option (List String)

/-- Options with every property absent, the `{}` default argument. -/
def emptyOptions : SigningOptions :=
  ⟨none, none, none, none, none⟩

/-- Field selector chosen by `useEnactDefaults` (default false):
`EnactFieldSelector` or `GenericFieldSelector`. -/
def selectorOf (options : SigningOptions) : List FieldConfig :=
  if options.useEnactDefaults.getD false then enactDefaultCriticalFields
  else genericDefaultFields

/-- The three field-selection properties the signing service forwards to
`createCanonicalObject` (it never passes `customFieldConfig`). -/
def fieldOptionsOf (options : SigningOptions) : SigningFieldOptions :=
  ⟨options.includeFields, options.excludeFields, options.additionalCriticalFields, none⟩

/- ## Signing service (`signing.ts`) -/

/-- Canonical projection performed by the signing service before hashing:
`createCanonicalObject` with the selector and forwarded options. -/
def canonicalForSigning (document : EnactDocument) (options : SigningOptions) :
    Except String (List (String × JValue)) :=
  createCanonicalObject (selectorOf options) document (fieldOptionsOf options)

/-- Per-signature step of `verifyDocument`. When the signature carries a
non-empty string public key that is trusted, verify against it; otherwise
fall back to trying every trusted public key. `ecdsaVerify` is the oracle
for `CryptoUtils.verify` (total by claim C5; the try/catch of the
fallback loop is therefore the identity). -/
def sigValid (ecdsaVerify : String → String → String → Bool)
    (trustedPublicKeys : List String) (messageHash : String)
    (sig : Signature) : Bool :=
  match sig.publicKey with
  | some pk =>
    if (pk != "" && trimStr pk != "") && trustedPublicKeys.contains pk then
      ecdsaVerify pk messageHash sig.signature
    else
      trustedPublicKeys.any (fun trustedKey => ecdsaVerify trustedKey messageHash sig.signature)
  | none =>
    trustedPublicKeys.any (fun trustedKey => ecdsaVerify trustedKey messageHash sig.signature)

/-- Body of `SigningService.verifyDocument` run on an explicit signature
list (lines below the list selection): the threshold check, then the
shared projection and digest, then the per-signature loop. `hashFn`
models `CryptoUtils.hash`; `trustedPublicKeys` the result of
`KeyManager.getAllTrustedPublicKeys()`; `loadedConfig` the result of
`SecurityConfigManager.loadConfig()`. -/
def verifyWithList (ecdsaVerify : String → String → String → Bool)
    (hashFn : String → String) (trustedPublicKeys : List String)
    (loadedConfig : SecurityConfig) (signatures : List Signature)
    (document : EnactDocument) (options : SigningOptions)
    (securityConfig : Option SecurityConfig) : Except String Bool :=
  let config := mergeConfig defaultSecurityConfig (securityConfig.getD loadedConfig)
  if signatures.length < config.minimumSignatures.getD 1 then
    if config.allowLocalUnsigned.getD false && signatures.length == 0 then
      Except.ok true
    else
      Except.ok false
  else
    match createCanonicalObject (selectorOf options) document (fieldOptionsOf options) with
    | Except.error e => Except.error e
    | Except.ok canonicalDocument =>
      let messageHash := hashFn (stringifyObj canonicalDocument)
      Except.ok (signatures.all (fun sig =>
        sigValid ecdsaVerify trustedPublicKeys messageHash sig))

/-- `SigningService.verifyDocument`. The list to verify is
`document.signatures || [signature]`: the document list whenever the
property is present (a present empty array is truthy in JS), the provided
signature otherwise. A raised projection error is an `Except.error`. -/
def verifyDocument (ecdsaVerify : String → String → String → Bool)
    (hashFn : String → String) (trustedPublicKeys : List String)
    (loadedConfig : SecurityConfig) (document : EnactDocument)
    (signature : Signature) (options : SigningOptions)
    (securityConfig : Option SecurityConfig) : Except String Bool :=
  let config := mergeConfig defaultSecurityConfig (securityConfig.getD loadedConfig)
  let signatures :=
    match document.signatures with
    | some sigs => sigs
    | none => [signature]
  if signatures.length < config.minimumSignatures.getD 1 then
    if config.allowLocalUnsigned.getD false && signatures.length == 0 then
      Except.ok true
    else
      Except.ok false
  else
    match createCanonicalObject (selectorOf options) document (fieldOptionsOf options) with
    | Except.error e => Except.error e
    | Except.ok canonicalDocument =>
      let messageHash := hashFn (stringifyObj canonicalDocument)
      Except.ok (signatures.all (fun sig =>
        sigValid ecdsaVerify trustedPublicKeys messageHash sig))

/-- Signature list that `verifyDocument` actually verifies. -/
def effectiveSignatures (document : EnactDocument) (signature : Signature) :
    List Signature :=
  match document.signatures with
  | some sigs => sigs
  | none => [signature]

/-- Effective `minimumSignatures` after the merge with the defaults. -/
def effectiveMinSigs (loadedConfig : SecurityConfig)
    (securityConfig : Option SecurityConfig) : Nat :=
  (mergeConfig defaultSecurityConfig (securityConfig.getD loadedConfig)).minimumSignatures.getD 1

/-- Effective `allowLocalUnsigned` after the merge with the defaults. -/
def effectiveAllow (loadedConfig : SecurityConfig)
    (securityConfig : Option SecurityConfig) : Bool :=
  (mergeConfig defaultSecurityConfig (securityConfig.getD loadedConfig)).allowLocalUnsigned.getD false

/-- Number of signatures of a list that the per-signature step accepts. -/
def countValid (ecdsaVerify : String → String → String → Bool)
    (trustedPublicKeys : List String) (messageHash : String)
    (signatures : List Signature) : Nat :=
  (signatures.filter (fun sig =>
    sigValid ecdsaVerify trustedPublicKeys messageHash sig)).length

/-- Digest shared by all signatures of a verification run, when the
projection succeeds (arbitrary on a failed projection, which never
reaches the digest). -/
def docMessageHash (hashFn : String → String) (document : EnactDocument)
    (options : SigningOptions) : String :=
  match canonicalForSigning document options with
  | Except.ok canonicalDocument => hashFn (stringifyObj canonicalDocument)
  | Except.error _ => ""

/-- Modelled from the spec: variant of `verifyDocument` whose signature
list follows the words of claim C3 — `document.signatures` is used only
when present AND non-empty, and `[providedSignature]` otherwise (also
when the document carries a present empty list). Used to compare the
claimed list selection with the one of the code. -/
def verifyDocumentC3Spec (ecdsaVerify : String → String → String → Bool)
    (hashFn : String → String) (trustedPublicKeys : List String)
    (loadedConfig : SecurityConfig) (document : EnactDocument)
    (signature : Signature) (options : SigningOptions)
    (securityConfig : Option SecurityConfig) : Except String Bool :=
  let signatures :=
    match document.signatures with
    | some sigs => if sigs.isEmpty then [signature] else sigs
    | none => [signature]
  verifyWithList ecdsaVerify hashFn trustedPublicKeys loadedConfig signatures
    document options securityConfig

/- ## Crypto wrapper (`crypto.ts`, `CryptoUtils.verify`) -/

/-- `CryptoUtils.verify`: decode both hex arguments, call the secp256k1
verifier, and map every raised error to `false` through the surrounding
try/catch. `secpVerify` is the oracle for `secp256k1.verify` applied to
`(signatureHex, hashBytes, publicKeyBytes)`; it may fail on malformed
signatures or keys. -/
def cryptoVerify (secpVerify : String → List Nat → List Nat → Except String Bool)
    (publicKeyHex messageHash signatureHex : String) : Bool :=
  let attempt : Except String Bool := do
    let publicKey ← hexToBytesE publicKeyHex
    let hash ← hexToBytesE messageHash
    secpVerify signatureHex hash publicKey
  match attempt with
  | Except.ok b => b
  | Except.error _ => false

/- ## PEM codec (tolerant browser variant of `CryptoUtils`) -/

/-- PEM label of a key type. -/
def keyLabel (isPublic : Bool) : String :=
  if isPublic then "PUBLIC KEY" else "PRIVATE KEY"

def beginMarkerOf (isPublic : Bool) : String :=
  "-----BEGIN " ++ keyLabel isPublic ++ "-----"

def endMarkerOf (isPublic : Bool) : String :=
  "-----END " ++ keyLabel isPublic ++ "-----"

/-- DER head of a SubjectPublicKeyInfo for a compressed secp256k1 point
(the constant `derPrefix` of the public branch of `hexToPem`). -/
def pubDerHead : String :=
  "3056301006072a8648ce3d020106052b8104000a034200"

/-- DER head of the PKCS8-style private structure emitted by the browser
codec. -/
def privDerHead : String :=
  "308184020100301306072a8648ce3d020106082a8648ce3d030107046d306b0201010420"

/-- PEM assembly: markers around the base64 body wrapped at 64 columns,
joined with LF, as in `[begin, ...pemLines, end].join('\n')`. -/
def mkPem (isPublic : Bool) (base64Key : List Char) : String :=
  String.mk (joinNL ([(beginMarkerOf isPublic).toList]
    ++ chunks64 base64Key ++ [(endMarkerOf isPublic).toList]))

/-- Base64 content extraction of `pemToHex`: drop the first occurrence of
each marker, then remove all whitespace. -/
def extractContent (pemKey : String) (isPublic : Bool) : List Char :=
  stripWs (replaceFirst (endMarkerOf isPublic).toList
    (replaceFirst (beginMarkerOf isPublic).toList pemKey.toList))

/-- `CryptoUtils.pemToHex` of the browser codec: strip markers and
whitespace, `atob`-decode, then run the tolerant public-key extraction
(DER marker scan, raw 33/32/65-byte shapes, 32..65-byte fallback) or the
private-key extraction (`0420` octet-string scan with raw fallback). -/
def pemToHex (pemKey : String) (isPublic : Bool) : Except String String :=
  match b64Decode (extractContent pemKey isPublic) with
  | none => Except.error "atob: invalid base64 input"
  | some derBytes =>
    let derHexL := bytesToHexChars derBytes
    if isPublic then
      match strFind "034200".toList derHexL with
      | some i =>
        Except.ok (String.mk (jsSubstring derHexL (i + 6) (i + 6 + 66)))
      | none =>
        if derBytes.length = 33 ∧ (derBytes.head? = some 2 ∨ derBytes.head? = some 3) then
          Except.ok (String.mk derHexL)
        else if derBytes.length = 32 then
          Except.ok ("02" ++ String.mk derHexL)
        else if derBytes.length = 65 ∧ derBytes.head? = some 4 then
          let x := jsSubstring derHexL 2 66
          let y := jsSubstring derHexL 66 130
          Except.ok (String.mk ((if hexNatOf y % 2 = 0 then '0' :: ['2'] else '0' :: ['3']) ++ x))
        else if 32 ≤ derBytes.length ∧ derBytes.length ≤ 65 then
          Except.ok (String.mk derHexL)
        else
          Except.error ("Unsupported public key format: " ++ toString derBytes.length ++ " bytes")
    else
      match strFind "0420".toList derHexL with
      | none =>
        if derBytes.length = 32 then
          Except.ok (String.mk derHexL)
        else
          Except.error "Could not find private key in DER structure"
      | some i =>
        let extractedKey := jsSubstring derHexL (i + 4) (i + 4 + 64)
        if extractedKey.length = 64 then
          Except.ok (String.mk extractedKey)
        else
          Except.error "Invalid private key length: expected 64 hex chars"

/-- `CryptoUtils.hexToPem` of the browser codec. `getPub` is the oracle
for `getPublicKeyFromPrivate` (compressed-point derivation); the unused
`hexToBytes(hexKey)` call of the source is kept for its validation
effect. -/
def hexToPem (getPub : String → String) (hexKey : String) (isPublic : Bool) :
    Except String String :=
  match hexToBytesE hexKey with
  | Except.error e => Except.error e
  | Except.ok _ =>
    let derKey :=
      if isPublic then pubDerHead ++ hexKey
      else privDerHead ++ hexKey ++ "a144034200" ++ getPub hexKey
    match hexToBytesE derKey with
    | Except.error e => Except.error e
    | Except.ok derBytes => Except.ok (mkPem isPublic (b64Encode derBytes))

/- ## Key store (`keyManager.ts`), file system as a set of paths -/

structure KeyPair where
  privateKey : String
  publicKey : String
  deriving BEq, DecidableEq, Repr

def publicKeyPath (keyId : String) : String :=
  "trusted-keys/" ++ keyId ++ "-public.pem"

def privateKeyPath (keyId : String) : String :=
  "private-keys/" ++ keyId ++ "-private.pem"

def metadataPath (keyId : String) : String :=
  "trusted-keys/" ++ keyId ++ ".meta"

/-- `KeyManager.keyExists`: both the public and the private key file must
exist. The file system is the list of existing paths. -/
def keyExists (fs : List String) (keyId : String) : Bool :=
  fs.contains (publicKeyPath keyId) && fs.contains (privateKeyPath keyId)

/-- `fs.writeFileSync`: creates the file or overwrites it in place. -/
def addFile (fs : List String) (p : String) : List String :=
  if fs.contains p then fs else fs ++ [p]

/-- `KeyManager.storeKey` on the path set: write the public PEM, the
private PEM and the metadata file (each write overwrites). -/
def storeKeyFs (fs : List String) (keyId : String) : List String :=
  addFile (addFile (addFile fs (publicKeyPath keyId)) (privateKeyPath keyId))
    (metadataPath keyId)

/-- `KeyManager.generateAndStoreKey`: throw when `keyExists`, otherwise
generate (the fresh pair is the oracle argument `keyPair`) and store. -/
def generateAndStoreKey (fs : List String) (keyId : String) (keyPair : KeyPair) :
    Except String (List String × KeyPair) :=
  if keyExists fs keyId then
    Except.error ("Key with ID " ++ keyId ++ " already exists")
  else
    Except.ok (storeKeyFs fs keyId, keyPair)

/- ## Helper lemmas -/

theorem mem_insertSorted (x s : String) (l : List String) :
    x ∈ insertSorted s l ↔ x = s ∨ x ∈ l := by
  induction l with
  | nil => simp [insertSorted]
  | cons t ts ih =>
    by_cases h : strLe s t
    · simp [insertSorted, h]
    · simp only [insertSorted, if_neg h, List.mem_cons, ih]
      tauto

theorem mem_sortStrings (x : String) (l : List String) :
    x ∈ sortStrings l ↔ x ∈ l := by
  induction l with
  | nil => simp [sortStrings]
  | cons t ts ih =>
    show x ∈ insertSorted t (sortStrings ts) ↔ _
    rw [mem_insertSorted]
    simp only [List.mem_cons]
    rw [ih]

theorem keys_objInsert (x k : String) (v : JValue) (l : List (String × JValue))
    (h : x ∈ (objInsert l k v).map Prod.fst) :
    x ∈ l.map Prod.fst ∨ x = k := by
  unfold objInsert at h
  by_cases hc : l.any (fun p => p.1 == k)
  · rw [if_pos hc, List.map_map] at h
    rcases List.mem_map.mp h with ⟨p, hp, hx⟩
    by_cases hk : p.1 == k
    · right
      simp only [Function.comp, hk, if_pos] at hx
      exact hx.symm
    · left
      simp only [Function.comp, hk, Bool.false_eq_true, if_false] at hx
      exact hx ▸ List.mem_map_of_mem Prod.fst hp
  · rw [if_neg hc, List.map_append] at h
    rcases List.mem_append.mp h with h | h
    · exact Or.inl h
    · right
      simpa using h

theorem keys_canonicalFold (document : EnactDocument) (names : List String)
    (acc : List (String × JValue)) (x : String)
    (h : x ∈ (names.foldl
      (fun canonical fieldName =>
        match getValue document fieldName with
        | some value =>
          if isEmptyVal value then canonical else objInsert canonical fieldName value
        | none => canonical)
      acc).map Prod.fst) :
    x ∈ acc.map Prod.fst ∨ x ∈ names := by
  induction names generalizing acc with
  | nil => exact Or.inl h
  | cons n ns ih =>
    rw [List.foldl_cons] at h
    rcases ih _ h with h1 | h1
    · rcases hv : getValue document n with _ | v
      · rw [hv] at h1
        exact Or.inl h1
      · rw [hv] at h1
        dsimp only at h1
        by_cases he : isEmptyVal v
        · rw [if_pos he] at h1
          exact Or.inl h1
        · rw [if_neg he] at h1
          rcases keys_objInsert x n v acc h1 with h2 | h2
          · exact Or.inl h2
          · exact Or.inr (h2 ▸ List.mem_cons_self n ns)
    · exact Or.inr (List.mem_cons_of_mem n h1)

theorem all_eq_false_of_mem {α : Type} (p : α → Bool) (l : List α) (x : α)
    (hx : x ∈ l) (hp : p x = false) : l.all p = false := by
  rcases h : l.all p with _ | _
  · rfl
  · exact absurd (List.all_eq_true.mp h x hx) (by simp [hp])

theorem countValid_of_all (ecdsaVerify : String → String → String → Bool)
    (trustedPublicKeys : List String) (messageHash : String)
    (signatures : List Signature)
    (h : signatures.all (fun sig =>
      sigValid ecdsaVerify trustedPublicKeys messageHash sig) = true) :
    countValid ecdsaVerify trustedPublicKeys messageHash signatures
      = signatures.length := by
  unfold countValid
  rw [List.filter_length_eq_length.mpr]
  intro a ha
  exact List.all_eq_true.mp h a ha

/- ## Claim C10 -/

/-- C10: when the document's `signatures` property is present (including
a present empty sequence), the result of `verifyDocument` does not depend
on the provided signature argument in any way. -/
theorem c10_provided_signature_noninterference
    (ecdsaVerify : String → String → String → Bool) (hashFn : String → String)
    (trustedPublicKeys : List String) (loadedConfig : SecurityConfig)
    (document : EnactDocument) (options : SigningOptions)
    (securityConfig : Option SecurityConfig) (l : List Signature)
    (h : document.signatures = some l) (s1 s2 : Signature) :
    verifyDocument ecdsaVerify hashFn trustedPublicKeys loadedConfig document s1
        options securityConfig
      = verifyDocument ecdsaVerify hashFn trustedPublicKeys loadedConfig document s2
        options securityConfig := by
  simp only [verifyDocument, h]

/-- Witness for C10 at a concrete document with a present empty
signature list and two different provided signatures. -/
theorem c10_witness :
    verifyDocument (fun _ _ _ => true) (fun _ => "") [] defaultSecurityConfig
        ⟨[], some []⟩ ⟨"a", some "k", "secp256k1", 0⟩ emptyOptions none
      = verifyDocument (fun _ _ _ => true) (fun _ => "") [] defaultSecurityConfig
        ⟨[], some []⟩ ⟨"b", none, "other", 1⟩ emptyOptions none :=
  c10_provided_signature_noninterference _ _ _ _ _ _ _ [] rfl _ _

/- ## Claim C3 -/

/-- Counterexample to C3 as stated: a document with a present empty
`signatures` sequence is verified against the empty list (threshold
failure, result false), not against the one-element provided-signature
list, which the claim-worded variant accepts here. -/
theorem c3_counterexample :
    verifyDocument (fun _ _ _ => true) (fun _ => "") ["pk"] defaultSecurityConfig
        ⟨[("id", JValue.str "x"), ("content", JValue.str "y"), ("timestamp", JValue.num 1)],
         some []⟩
        ⟨"aa", some "pk", "secp256k1", 0⟩ emptyOptions (some ⟨some false, some 1⟩)
      = Except.ok false
    ∧ verifyDocumentC3Spec (fun _ _ _ => true) (fun _ => "") ["pk"] defaultSecurityConfig
        ⟨[("id", JValue.str "x"), ("content", JValue.str "y"), ("timestamp", JValue.num 1)],
         some []⟩
        ⟨"aa", some "pk", "secp256k1", 0⟩ emptyOptions (some ⟨some false, some 1⟩)
      = Except.ok true :=
  ⟨rfl, rfl⟩

/-- C3 amended: `verifyDocument` verifies the list `document.signatures`
whenever that property is present — even when it is an empty sequence —
and verifies the one-element list containing the provided signature only
when the property is absent. -/
theorem c3_signature_list_selection
    (ecdsaVerify : String → String → String → Bool) (hashFn : String → String)
    (trustedPublicKeys : List String) (loadedConfig : SecurityConfig)
    (document : EnactDocument) (signature : Signature)
    (options : SigningOptions) (securityConfig : Option SecurityConfig) :
    (∀ l, document.signatures = some l →
      verifyDocument ecdsaVerify hashFn trustedPublicKeys loadedConfig document
          signature options securityConfig
        = verifyWithList ecdsaVerify hashFn trustedPublicKeys loadedConfig l
          document options securityConfig)
    ∧ (document.signatures = none →
      verifyDocument ecdsaVerify hashFn trustedPublicKeys loadedConfig document
          signature options securityConfig
        = verifyWithList ecdsaVerify hashFn trustedPublicKeys loadedConfig [signature]
          document options securityConfig) := by
  constructor
  · intro l h
    simp only [verifyDocument, verifyWithList, h]
  · intro h
    simp only [verifyDocument, verifyWithList, h]

/-- Witness for C3 amended at a concrete document with a present empty
signature list. -/
theorem c3_witness :
    verifyDocument (fun _ _ _ => true) (fun _ => "") [] defaultSecurityConfig
        ⟨[], some []⟩ ⟨"aa", some "pk", "secp256k1", 0⟩ emptyOptions none
      = verifyWithList (fun _ _ _ => true) (fun _ => "") [] defaultSecurityConfig
        [] ⟨[], some []⟩ emptyOptions none :=
  (c3_signature_list_selection _ _ _ _ _ _ _ _).1 [] rfl

/- ## Claim C5 -/

/-- C5: `CryptoUtils.verify` always returns a boolean: a hex-decoding
failure of either hex argument gives `false`, a raised verification
error gives `false`, and a completed verification returns its boolean;
the function never propagates an exception. -/
theorem c5_verify_never_throws
    (secpVerify : String → List Nat → List Nat → Except String Bool)
    (publicKeyHex messageHash signatureHex : String) :
    (∀ e, hexToBytesE publicKeyHex = Except.error e →
      cryptoVerify secpVerify publicKeyHex messageHash signatureHex = false)
    ∧ (∀ e, hexToBytesE messageHash = Except.error e →
      cryptoVerify secpVerify publicKeyHex messageHash signatureHex = false)
    ∧ (∀ pb hb e, hexToBytesE publicKeyHex = Except.ok pb →
      hexToBytesE messageHash = Except.ok hb →
      secpVerify signatureHex hb pb = Except.error e →
      cryptoVerify secpVerify publicKeyHex messageHash signatureHex = false)
    ∧ (∀ pb hb b, hexToBytesE publicKeyHex = Except.ok pb →
      hexToBytesE messageHash = Except.ok hb →
      secpVerify signatureHex hb pb = Except.ok b →
      cryptoVerify secpVerify publicKeyHex messageHash signatureHex = b) := by
  refine ⟨?_, ?_, ?_, ?_⟩
  · intro e he
    unfold cryptoVerify
    rw [he]
    exact rfl
  · intro e he
    rcases hp : hexToBytesE publicKeyHex with e2 | pb
    · unfold cryptoVerify
      rw [hp]
      exact rfl
    · unfold cryptoVerify
      rw [hp, he]
      exact rfl
  · intro pb hb e hp hh hs
    unfold cryptoVerify
    rw [hp, hh]
    change (match secpVerify signatureHex hb pb with
      | Except.ok b => b
      | Except.error _ => false) = false
    rw [hs]
  · intro pb hb b hp hh hs
    unfold cryptoVerify
    rw [hp, hh]
    change (match secpVerify signatureHex hb pb with
      | Except.ok b => b
      | Except.error _ => false) = b
    rw [hs]

/-- Witness for C5: a malformed public-key hex string yields `false`
even under a verifier oracle that always accepts. -/
theorem c5_witness :
    cryptoVerify (fun _ _ _ => Except.ok true) "zz" "00" "aabb" = false :=
  (c5_verify_never_throws (fun _ _ _ => Except.ok true) "zz" "00" "aabb").1
    "hex string expected, got non-hex character" rfl

/- ## Claim C8 -/

/-- Counterexample to C8 as stated: with only the public-key file
present, `generateAndStoreKey` does not fail — it succeeds and rewrites
the pre-existing public-key file. -/
theorem c8_counterexample :
    generateAndStoreKey [publicKeyPath "k1"] "k1" ⟨"priv", "pub"⟩
      = Except.ok ([publicKeyPath "k1", privateKeyPath "k1", metadataPath "k1"],
        ⟨"priv", "pub"⟩)
    ∧ publicKeyPath "k1" ∈ [publicKeyPath "k1"] :=
  ⟨rfl, List.mem_singleton.mpr rfl⟩

/-- C8 amended: `generateAndStoreKey` fails exactly when both the
public-key file and the private-key file for the key id already exist
(`keyExists`); otherwise it stores the fresh pair, writing all three
files and overwriting a single pre-existing file if there is one. -/
theorem c8_generate_and_store
    (fs : List String) (keyId : String) (keyPair : KeyPair) :
    (keyExists fs keyId = true →
      generateAndStoreKey fs keyId keyPair
        = Except.error ("Key with ID " ++ keyId ++ " already exists"))
    ∧ (keyExists fs keyId = false →
      generateAndStoreKey fs keyId keyPair
        = Except.ok (storeKeyFs fs keyId, keyPair)
      ∧ publicKeyPath keyId ∈ storeKeyFs fs keyId
      ∧ privateKeyPath keyId ∈ storeKeyFs fs keyId
      ∧ metadataPath keyId ∈ storeKeyFs fs keyId) := by
  have haddSelf : ∀ (l : List String) (p : String), p ∈ addFile l p := by
    intro l p
    unfold addFile
    by_cases h : l.contains p
    · rw [if_pos h]
      exact List.elem_iff.mp h
    · rw [if_neg h]
      simp
  have haddMono : ∀ (l : List String) (p q : String), q ∈ l → q ∈ addFile l p := by
    intro l p q hq
    unfold addFile
    by_cases h : l.contains p
    · rw [if_pos h]
      exact hq
    · rw [if_neg h]
      exact List.mem_append_left _ hq
  constructor
  · intro h
    unfold generateAndStoreKey
    rw [if_pos h]
  · intro h
    refine ⟨?_, ?_, ?_, ?_⟩
    · unfold generateAndStoreKey
      rw [if_neg (by simp [h])]
    · exact haddMono _ _ _ (haddMono _ _ _ (haddSelf _ _))
    · exact haddMono _ _ _ (haddSelf _ _)
    · exact haddSelf _ _

/-- Witness for C8 amended on an empty store: the key does not exist and
storing succeeds. -/
theorem c8_witness :
    generateAndStoreKey [] "k" ⟨"a", "b"⟩
      = Except.ok (storeKeyFs [] "k", ⟨"a", "b"⟩) :=
  ((c8_generate_and_store [] "k" ⟨"a", "b"⟩).2 rfl).1

/- ## Structure lemma for `verifyDocument` -/

theorem verifyDocument_eq (ecdsaVerify : String → String → String → Bool)
    (hashFn : String → String) (trustedPublicKeys : List String)
    (loadedConfig : SecurityConfig) (document : EnactDocument)
    (signature : Signature) (options : SigningOptions)
    (securityConfig : Option SecurityConfig) :
    verifyDocument ecdsaVerify hashFn trustedPublicKeys loadedConfig document
        signature options securityConfig
      = (if (effectiveSignatures document signature).length
            < effectiveMinSigs loadedConfig securityConfig then
          if effectiveAllow loadedConfig securityConfig
              && (effectiveSignatures document signature).length == 0 then
            Except.ok true
          else
            Except.ok false
        else
          match canonicalForSigning document options with
          | Except.error e => Except.error e
          | Except.ok canonicalDocument =>
            Except.ok ((effectiveSignatures document signature).all (fun sig =>
              sigValid ecdsaVerify trustedPublicKeys
                (hashFn (stringifyObj canonicalDocument)) sig))) := rfl

/- ## Claim C1 -/

/-- C1: a signature whose `publicKey` is missing, non-string, or the
empty string is counted valid exactly when some trusted public key
verifies it against the shared digest; with an empty trusted set such a
signature always fails, and `verifyDocument` never succeeds (and returns
false whenever the projection completes). -/
theorem c1_fallback_soundness (ecdsaVerify : String → String → String → Bool)
    (hashFn : String → String) (trustedPublicKeys : List String)
    (loadedConfig : SecurityConfig) (document : EnactDocument)
    (s : Signature) (options : SigningOptions)
    (securityConfig : Option SecurityConfig) (sig : Signature)
    (hpk : sig.publicKey = none ∨ sig.publicKey = some "") :
    (∀ mh, sigValid ecdsaVerify trustedPublicKeys mh sig = true ↔
      ∃ pk ∈ trustedPublicKeys, ecdsaVerify pk mh sig.signature = true)
    ∧ (sig ∈ effectiveSignatures document s →
      verifyDocument ecdsaVerify hashFn [] loadedConfig document s options
          securityConfig ≠ Except.ok true)
    ∧ (sig ∈ effectiveSignatures document s →
      ∀ c, canonicalForSigning document options = Except.ok c →
      verifyDocument ecdsaVerify hashFn [] loadedConfig document s options
          securityConfig = Except.ok false) := by
  have hfall : ∀ (mh : String) (tks : List String),
      sigValid ecdsaVerify tks mh sig
        = tks.any (fun trustedKey => ecdsaVerify trustedKey mh sig.signature) := by
    intro mh tks
    rcases hpk with h | h
    · simp [sigValid, h]
    · simp [sigValid, h]
  have hlen : sig ∈ effectiveSignatures document s →
      ((effectiveSignatures document s).length == 0) = false := by
    intro hmem
    have : effectiveSignatures document s ≠ [] := List.ne_nil_of_mem hmem
    simp [List.length_eq_zero, this]
  have hsigfalse : ∀ mh, sigValid ecdsaVerify [] mh sig = false := by
    intro mh
    rw [hfall mh []]
    rfl
  refine ⟨?_, ?_, ?_⟩
  · intro mh
    rw [hfall mh trustedPublicKeys]
    exact List.any_eq_true
  · intro hmem heq
    rw [verifyDocument_eq] at heq
    by_cases hlt : (effectiveSignatures document s).length
        < effectiveMinSigs loadedConfig securityConfig
    · rw [if_pos hlt, hlen hmem] at heq
      simp at heq
    · rw [if_neg hlt] at heq
      rcases hc : canonicalForSigning document options with e | c
      · rw [hc] at heq
        exact Except.noConfusion heq
      · rw [hc] at heq
        have hall := Except.ok.inj heq
        have := List.all_eq_true.mp hall sig hmem
        rw [hsigfalse] at this
        exact Bool.noConfusion this
  · intro hmem c hc
    rw [verifyDocument_eq]
    by_cases hlt : (effectiveSignatures document s).length
        < effectiveMinSigs loadedConfig securityConfig
    · rw [if_pos hlt, hlen hmem]
      simp
    · rw [if_neg hlt, hc]
      have : (effectiveSignatures document s).all (fun x =>
          sigValid ecdsaVerify [] (hashFn (stringifyObj c)) x) = false :=
        all_eq_false_of_mem _ _ sig hmem (hsigfalse _)
      exact congrArg Except.ok this

/-- Witness for C1 at a concrete empty-publicKey signature: with one
trusted key and an accepting verifier the fallback accepts; with an
empty trusted set the whole verification returns false. -/
theorem c1_witness :
    sigValid (fun _ _ _ => true) ["k"] "" ⟨"aa", some "", "x", 0⟩ = true
    ∧ verifyDocument (fun _ _ _ => true) (fun _ => "") [] defaultSecurityConfig
        ⟨[("id", JValue.str "x"), ("content", JValue.str "y"), ("timestamp", JValue.num 1)],
         some [⟨"aa", some "", "x", 0⟩]⟩
        ⟨"z", none, "x", 0⟩ emptyOptions none
      = Except.ok false := by
  constructor
  · exact ((c1_fallback_soundness (fun _ _ _ => true) (fun _ => "") ["k"]
      defaultSecurityConfig ⟨[], none⟩ ⟨"z", none, "x", 0⟩ emptyOptions none
      ⟨"aa", some "", "x", 0⟩ (Or.inr rfl)).1 "").mpr ⟨"k", by simp, rfl⟩
  · exact (c1_fallback_soundness (fun _ _ _ => true) (fun _ => "") []
      defaultSecurityConfig
      ⟨[("id", JValue.str "x"), ("content", JValue.str "y"), ("timestamp", JValue.num 1)],
       some [⟨"aa", some "", "x", 0⟩]⟩
      ⟨"z", none, "x", 0⟩ emptyOptions none
      ⟨"aa", some "", "x", 0⟩ (Or.inr rfl)).2.2 (by simp [effectiveSignatures])
      [("content", JValue.str "y"), ("id", JValue.str "x"), ("timestamp", JValue.num 1)] rfl

/- ## Claim C2 -/

/-- Counterexample to C2 as stated: with `minimumSignatures = 2`,
`allowLocalUnsigned = true` and a present empty signature list,
`verifyDocument` returns true although the count of valid signatures is
0 < 2 and the effective minimum is 2, not 0. -/
theorem c2_counterexample :
    verifyDocument (fun _ _ _ => false) (fun _ => "") [] defaultSecurityConfig
        ⟨[], some []⟩ ⟨"aa", some "pk", "secp256k1", 0⟩ emptyOptions
        (some ⟨some true, some 2⟩)
      = Except.ok true
    ∧ effectiveMinSigs defaultSecurityConfig (some ⟨some true, some 2⟩) = 2
    ∧ effectiveSignatures ⟨[], some []⟩ ⟨"aa", some "pk", "secp256k1", 0⟩ = []
    ∧ countValid (fun _ _ _ => false) [] "" [] = 0 :=
  ⟨rfl, rfl, rfl, rfl⟩

/-- C2 amended: `verifyDocument` returns true only if the count of valid
signatures is at least the effective minimum m, or `allowLocalUnsigned`
holds and the signature list is empty (regardless of m); when the list is
shorter than m it returns true exactly when `allowLocalUnsigned` holds
and the list is empty, and returns false otherwise. -/
theorem c2_policy_threshold (ecdsaVerify : String → String → String → Bool)
    (hashFn : String → String) (trustedPublicKeys : List String)
    (loadedConfig : SecurityConfig) (document : EnactDocument)
    (signature : Signature) (options : SigningOptions)
    (securityConfig : Option SecurityConfig) :
    (verifyDocument ecdsaVerify hashFn trustedPublicKeys loadedConfig document
        signature options securityConfig = Except.ok true →
      effectiveMinSigs loadedConfig securityConfig
          ≤ countValid ecdsaVerify trustedPublicKeys
            (docMessageHash hashFn document options)
            (effectiveSignatures document signature)
        ∨ (effectiveAllow loadedConfig securityConfig = true
            ∧ (effectiveSignatures document signature).length = 0))
    ∧ ((effectiveSignatures document signature).length
          < effectiveMinSigs loadedConfig securityConfig →
        (verifyDocument ecdsaVerify hashFn trustedPublicKeys loadedConfig document
            signature options securityConfig = Except.ok true ↔
          effectiveAllow loadedConfig securityConfig = true
            ∧ (effectiveSignatures document signature).length = 0))
    ∧ ((effectiveSignatures document signature).length
          < effectiveMinSigs loadedConfig securityConfig →
        ¬(effectiveAllow loadedConfig securityConfig = true
            ∧ (effectiveSignatures document signature).length = 0) →
        verifyDocument ecdsaVerify hashFn trustedPublicKeys loadedConfig document
            signature options securityConfig = Except.ok false) := by
  have hcond : (effectiveAllow loadedConfig securityConfig
        && (effectiveSignatures document signature).length == 0) = true ↔
      (effectiveAllow loadedConfig securityConfig = true
        ∧ (effectiveSignatures document signature).length = 0) := by
    rw [Bool.and_eq_true]
    constructor
    · rintro ⟨ha, hb⟩
      exact ⟨ha, beq_iff_eq.mp hb⟩
    · rintro ⟨ha, hb⟩
      exact ⟨ha, by simp [hb]⟩
  refine ⟨?_, ?_, ?_⟩
  · intro htrue
    rw [verifyDocument_eq] at htrue
    by_cases hlt : (effectiveSignatures document signature).length
        < effectiveMinSigs loadedConfig securityConfig
    · rw [if_pos hlt] at htrue
      right
      by_cases hb : (effectiveAllow loadedConfig securityConfig
          && (effectiveSignatures document signature).length == 0) = true
      · exact hcond.mp hb
      · rw [if_neg hb] at htrue
        exact absurd (Except.ok.inj htrue) (by simp)
    · left
      rw [if_neg hlt] at htrue
      rcases hc : canonicalForSigning document options with e | c
      · rw [hc] at htrue
        exact Except.noConfusion htrue
      · rw [hc] at htrue
        have hall := Except.ok.inj htrue
        have hcount := countValid_of_all ecdsaVerify trustedPublicKeys
          (hashFn (stringifyObj c)) (effectiveSignatures document signature) hall
        have hmh : docMessageHash hashFn document options
            = hashFn (stringifyObj c) := by
          unfold docMessageHash
          rw [hc]
        rw [hmh, hcount]
        exact Nat.le_of_not_lt hlt
  · intro hlt
    rw [verifyDocument_eq, if_pos hlt]
    constructor
    · intro htrue
      by_cases hb : (effectiveAllow loadedConfig securityConfig
          && (effectiveSignatures document signature).length == 0) = true
      · exact hcond.mp hb
      · rw [if_neg hb] at htrue
        exact absurd (Except.ok.inj htrue) (by simp)
    · intro hab
      rw [if_pos (hcond.mpr hab)]
  · intro hlt hnot
    rw [verifyDocument_eq, if_pos hlt, if_neg]
    intro hb
    exact hnot (hcond.mp hb)

/-- Witness for C2 amended: at a concrete instance with an empty present
signature list and a permissive policy, the threshold clause yields true. -/
theorem c2_witness :
    verifyDocument (fun _ _ _ => false) (fun _ => "") [] defaultSecurityConfig
        ⟨[], some []⟩ ⟨"aa", some "pk", "secp256k1", 0⟩ emptyOptions none
      = Except.ok true :=
  ((c2_policy_threshold (fun _ _ _ => false) (fun _ => "") [] defaultSecurityConfig
      ⟨[], some []⟩ ⟨"aa", some "pk", "secp256k1", 0⟩ emptyOptions none).2.1
    (by decide)).mpr ⟨rfl, rfl⟩

/- ## Claim C9 -/

/-- Counterexample to C9 as stated: a document missing the required
selected field `id`, carrying a present empty signature list under a
strict policy, makes `verifyDocument` return false — no
missing-required-field error is raised, because the threshold check runs
before the projection. -/
theorem c9_counterexample :
    verifyDocument (fun _ _ _ => true) (fun _ => "") [] defaultSecurityConfig
        ⟨[], some []⟩ ⟨"aa", some "pk", "secp256k1", 0⟩ emptyOptions
        (some ⟨some false, some 1⟩)
      = Except.ok false
    ∧ (⟨"id", true, true⟩ : FieldConfig) ∈ selectorOf emptyOptions
    ∧ "id" ∈ fieldsToIncludeFor (selectorOf emptyOptions) (fieldOptionsOf emptyOptions)
    ∧ missingOrEmpty ⟨[], some []⟩ "id" = true :=
  ⟨rfl, List.mem_cons_self _ _, by decide, rfl⟩

/-- C9 amended: when a field that is required in the active default set
and selected for signing is missing or empty, and the signature list
passes the threshold check, `verifyDocument` raises the
missing-required-field error instead of returning false. -/
theorem c9_verification_raises (ecdsaVerify : String → String → String → Bool)
    (hashFn : String → String) (trustedPublicKeys : List String)
    (loadedConfig : SecurityConfig) (document : EnactDocument)
    (signature : Signature) (options : SigningOptions)
    (securityConfig : Option SecurityConfig) (f : FieldConfig)
    (hf : f ∈ selectorOf options) (hreq : f.required = true)
    (hsel : f.name ∈ fieldsToIncludeFor (selectorOf options) (fieldOptionsOf options))
    (hmiss : missingOrEmpty document f.name = true)
    (hn : effectiveMinSigs loadedConfig securityConfig
      ≤ (effectiveSignatures document signature).length) :
    ∃ g, verifyDocument ecdsaVerify hashFn trustedPublicKeys loadedConfig document
        signature options securityConfig = Except.error (requiredFieldError g) := by
  have hmemReq : f.name ∈ ((selectorOf options).filter (fun g =>
      g.required && (fieldsToIncludeFor (selectorOf options)
        (fieldOptionsOf options)).contains g.name)).map (fun g => g.name) := by
    refine List.mem_map_of_mem _ (List.mem_filter.mpr ⟨hf, ?_⟩)
    rw [hreq]
    simp only [List.contains, Bool.true_and]
    exact List.elem_iff.mpr hsel
  have hsome : (((selectorOf options).filter (fun g =>
      g.required && (fieldsToIncludeFor (selectorOf options)
        (fieldOptionsOf options)).contains g.name)).map (fun g => g.name)).find?
        (fun r => missingOrEmpty document r) |>.isSome := by
    rw [List.find?_isSome]
    exact ⟨f.name, hmemReq, hmiss⟩
  rcases hr : (((selectorOf options).filter (fun g =>
      g.required && (fieldsToIncludeFor (selectorOf options)
        (fieldOptionsOf options)).contains g.name)).map (fun g => g.name)).find?
        (fun r => missingOrEmpty document r) with _ | r
  · rw [hr] at hsome
    exact Bool.noConfusion hsome
  · refine ⟨r, ?_⟩
    rw [verifyDocument_eq, if_neg (Nat.not_lt.mpr hn)]
    have hcanon : canonicalForSigning document options
        = Except.error (requiredFieldError r) := by
      unfold canonicalForSigning createCanonicalObject validateRequiredFields
      rw [show (fieldOptionsOf options).customFieldConfig.getD (selectorOf options)
        = selectorOf options from rfl]
      dsimp only
      rw [hr]
    rw [hcanon]

/-- Witness for C9 amended at a concrete document with one signature and
a missing required `id` field. -/
theorem c9_witness :
    ∃ g, verifyDocument (fun _ _ _ => true) (fun _ => "") [] defaultSecurityConfig
        ⟨[], some [⟨"aa", some "pk", "secp256k1", 0⟩]⟩
        ⟨"aa", some "pk", "secp256k1", 0⟩ emptyOptions none
      = Except.error (requiredFieldError g) :=
  c9_verification_raises (fun _ _ _ => true) (fun _ => "") [] defaultSecurityConfig
    ⟨[], some [⟨"aa", some "pk", "secp256k1", 0⟩]⟩
    ⟨"aa", some "pk", "secp256k1", 0⟩ emptyOptions none
    ⟨"id", true, true⟩ (List.mem_cons_self _ _) rfl (by decide) rfl (by decide)

/- ## Claim C4 -/

/-- Counterexample to C4 as stated: options that explicitly select the
`signatures` field make the canonical projected mapping contain it. -/
theorem c4_counterexample :
    canonicalForSigning
        ⟨[("signatures", JValue.arr [JValue.str "s"])],
         some [⟨"aa", some "pk", "secp256k1", 0⟩]⟩
        ⟨none, none, some ["signatures"], none, none⟩
      = Except.ok [("signatures", JValue.arr [JValue.str "s"])]
    ∧ "signatures" ∈ ([("signatures", JValue.arr [JValue.str "s"])]).map Prod.fst :=
  ⟨rfl, by simp⟩

/-- C4 amended: unless the options explicitly select the `signatures`
field (through `includeFields` or `additionalCriticalFields`), the
canonical projected mapping that is serialized and hashed for signing
never contains a `signatures` key, even when the document carries one. -/
theorem c4_signatures_not_signed (document : EnactDocument)
    (options : SigningOptions)
    (h1 : "signatures" ∉ options.includeFields.getD [])
    (h2 : "signatures" ∉ options.additionalCriticalFields.getD [])
    (c : List (String × JValue))
    (hc : canonicalForSigning document options = Except.ok c) :
    "signatures" ∉ c.map Prod.fst := by
  intro hmem
  unfold canonicalForSigning createCanonicalObject at hc
  rw [show (fieldOptionsOf options).customFieldConfig.getD (selectorOf options)
    = selectorOf options from rfl] at hc
  dsimp only at hc
  rcases hval : validateRequiredFields document (selectorOf options)
      (fieldsToIncludeFor (selectorOf options) (fieldOptionsOf options)) with e | u
  · rw [hval] at hc
    exact Except.noConfusion hc
  · rw [hval] at hc
    have hcfold := Except.ok.inj hc
    rw [← hcfold] at hmem
    rcases keys_canonicalFold document _ [] "signatures" hmem with habs | hin
    · simp at habs
    · rw [mem_sortStrings] at hin
      unfold fieldsToIncludeFor at hin
      have hbase := (List.mem_filter.mp hin).1
      rcases hopt : options.includeFields with _ | l
      · rw [show (fieldOptionsOf options).includeFields = options.includeFields from rfl,
          hopt] at hbase
        dsimp only at hbase
        rcases List.mem_append.mp hbase with hcrit | hadd
        · rcases List.mem_map.mp hcrit with ⟨g, hg, hgname⟩
          have hgsel : g ∈ selectorOf options := (List.mem_filter.mp hg).1
          unfold selectorOf at hgsel
          by_cases hdef : options.useEnactDefaults.getD false
          · rw [if_pos hdef] at hgsel
            fin_cases hgsel <;> simp_all
          · rw [if_neg hdef] at hgsel
            fin_cases hgsel <;> simp_all
        · rw [show (fieldOptionsOf options).additionalCriticalFields
            = options.additionalCriticalFields from rfl] at hadd
          exact h2 hadd
      · rw [show (fieldOptionsOf options).includeFields = options.includeFields from rfl,
          hopt] at hbase
        dsimp only at hbase
        rw [hopt] at h1
        exact h1 hbase

/-- Witness for C4 amended: under default options a document carrying a
`signatures` field projects to a canonical mapping without it. -/
theorem c4_witness :
    "signatures" ∉ ([("content", JValue.str "y"), ("id", JValue.str "x"),
      ("timestamp", JValue.num 1)]).map Prod.fst :=
  c4_signatures_not_signed
    ⟨[("signatures", JValue.arr [JValue.str "s"]), ("id", JValue.str "x"),
      ("content", JValue.str "y"), ("timestamp", JValue.num 1)], none⟩
    emptyOptions (by simp [emptyOptions]) (by simp [emptyOptions]) _ rfl

/- ## Base64 codec lemmas -/

theorem encC_mem (n : Nat) : encC n ∈ b64Chars := by
  unfold encC
  by_cases h : n < b64Chars.length
  · rw [List.getD_eq_getElem _ _ h]
    exact List.getElem_mem h
  · rw [List.getD_eq_default _ _ (Nat.le_of_not_lt h)]
    decide

theorem b64Chars_props : ∀ c ∈ b64Chars, ¬isWsChar c = true ∧ c ≠ '-' ∧ c ≠ '=' := by
  decide

theorem encC_ne_pad (n : Nat) : encC n ≠ '=' :=
  (b64Chars_props (encC n) (encC_mem n)).2.2

theorem decC_encC : ∀ n, n < 64 → decC (encC n) = some n := by decide

theorem b64Encode_chars : ∀ (l : List Nat), ∀ c ∈ b64Encode l, c ∈ b64Chars ∨ c = '='
  | [], c, h => absurd h (List.not_mem_nil c)
  | [a], c, h => by
    unfold b64Encode at h
    simp only [List.mem_cons, List.not_mem_nil, or_false] at h
    rcases h with h | h | h | h
    · exact Or.inl (h ▸ encC_mem _)
    · exact Or.inl (h ▸ encC_mem _)
    · exact Or.inr h
    · exact Or.inr h
  | [a, b], c, h => by
    unfold b64Encode at h
    simp only [List.mem_cons, List.not_mem_nil, or_false] at h
    rcases h with h | h | h | h
    · exact Or.inl (h ▸ encC_mem _)
    · exact Or.inl (h ▸ encC_mem _)
    · exact Or.inl (h ▸ encC_mem _)
    · exact Or.inr h
  | a :: b :: d :: rest, c, h => by
    unfold b64Encode at h
    simp only [List.mem_cons] at h
    rcases h with h | h | h | h | h
    · exact Or.inl (h ▸ encC_mem _)
    · exact Or.inl (h ▸ encC_mem _)
    · exact Or.inl (h ▸ encC_mem _)
    · exact Or.inl (h ▸ encC_mem _)
    · exact b64Encode_chars rest c h

theorem b64_round : ∀ (l : List Nat), (∀ x ∈ l, x < 256) →
    b64Decode (b64Encode l) = some l
  | [], _ => rfl
  | [a], h => by
    have ha : a < 256 := h a (List.mem_singleton.mpr rfl)
    show b64Decode [encC (a / 4), encC (a % 4 * 16), '=', '='] = some [a]
    unfold b64Decode
    rw [if_pos ⟨rfl, rfl, rfl⟩]
    rw [decC_encC (a / 4) (by omega), decC_encC (a % 4 * 16) (by omega)]
    dsimp only
    have : a / 4 * 4 + a % 4 * 16 / 16 = a := by omega
    rw [this]
  | [a, b], h => by
    have ha : a < 256 := h a (by simp)
    have hb : b < 256 := h b (by simp)
    show b64Decode [encC (a / 4), encC (a % 4 * 16 + b / 16), encC (b % 16 * 4), '=']
      = some [a, b]
    unfold b64Decode
    rw [if_neg (by
      rintro ⟨h1, -, -⟩
      exact encC_ne_pad _ h1)]
    rw [if_pos ⟨rfl, rfl⟩]
    rw [decC_encC (a / 4) (by omega), decC_encC (a % 4 * 16 + b / 16) (by omega),
      decC_encC (b % 16 * 4) (by omega)]
    dsimp only
    have h1 : a / 4 * 4 + (a % 4 * 16 + b / 16) / 16 = a := by omega
    have h2 : (a % 4 * 16 + b / 16) % 16 * 16 + b % 16 * 4 / 4 = b := by omega
    rw [h1, h2]
  | a :: b :: d :: rest, h => by
    have ha : a < 256 := h a (by simp)
    have hb : b < 256 := h b (by simp)
    have hd : d < 256 := h d (by simp)
    have hrest : ∀ x ∈ rest, x < 256 := fun x hx => h x (by simp [hx])
    show b64Decode (encC (a / 4) :: encC (a % 4 * 16 + b / 16)
      :: encC (b % 16 * 4 + d / 64) :: encC (d % 64) :: b64Encode rest)
      = some (a :: b :: d :: rest)
    unfold b64Decode
    rw [if_neg (by
      rintro ⟨h1, -, -⟩
      exact encC_ne_pad _ h1)]
    rw [if_neg (by
      rintro ⟨h1, -⟩
      exact encC_ne_pad _ h1)]
    rw [decC_encC (a / 4) (by omega), decC_encC (a % 4 * 16 + b / 16) (by omega),
      decC_encC (b % 16 * 4 + d / 64) (by omega), decC_encC (d % 64) (by omega)]
    rw [b64_round rest hrest]
    dsimp only
    have h1 : a / 4 * 4 + (a % 4 * 16 + b / 16) / 16 = a := by omega
    have h2 : (a % 4 * 16 + b / 16) % 16 * 16 + (b % 16 * 4 + d / 64) / 4 = b := by omega
    have h3 : (b % 16 * 4 + d / 64) % 4 * 64 + d % 64 = d := by omega
    rw [h1, h2, h3]

/- ## Hex codec lemmas -/

theorem lhex_char (c : Char) (h : isLHex c = true) :
    ∃ v, v < 16 ∧ hexDigitVal? c = some v ∧ toHexChar v = c := by
  have hmem : c ∈ lowerHexChars := List.elem_iff.mp h
  fin_cases hmem <;> decide

theorem hexRT : ∀ (cl : List Char), (∀ c ∈ cl, isLHex c = true) →
    cl.length % 2 = 0 →
    ∃ bs, hexPairsToBytes cl = Except.ok bs ∧ bytesToHexChars bs = cl
      ∧ ∀ x ∈ bs, x < 256
  | [], _, _ => ⟨[], rfl, rfl, by simp⟩
  | [c], _, heven => absurd heven (by simp)
  | c1 :: c2 :: rest, hall, heven => by
    obtain ⟨v1, hv1, hd1, ht1⟩ := lhex_char c1 (hall c1 (by simp))
    obtain ⟨v2, hv2, hd2, ht2⟩ := lhex_char c2 (hall c2 (by simp))
    obtain ⟨bs, hbs, hback, hbound⟩ := hexRT rest
      (fun c hc => hall c (by simp [hc]))
      (by simp only [List.length_cons] at heven ⊢; omega)
    refine ⟨(v1 * 16 + v2) :: bs, ?_, ?_, ?_⟩
    · unfold hexPairsToBytes
      rw [hd1, hd2]
      dsimp only
      rw [hbs]
      rfl
    · have hcons : bytesToHexChars ((v1 * 16 + v2) :: bs)
          = toHexChar ((v1 * 16 + v2) / 16) :: toHexChar ((v1 * 16 + v2) % 16)
            :: bytesToHexChars bs := rfl
      have e1 : (v1 * 16 + v2) / 16 = v1 := by omega
      have e2 : (v1 * 16 + v2) % 16 = v2 := by omega
      rw [hcons, e1, e2, ht1, ht2, hback]
    · intro x hx
      rcases List.mem_cons.mp hx with hx | hx
      · omega
      · exact hbound x hx

/- ## PEM assembly and extraction lemmas -/

theorem prefixMatch_append_self : ∀ (p t : List Char), prefixMatch p (p ++ t) = true
  | [], _ => rfl
  | c :: ps, t => by
    show (c == c && prefixMatch ps (ps ++ t)) = true
    rw [beq_self_eq_true, prefixMatch_append_self ps t]
    rfl

theorem prefixMatch_append_left (p : List Char) :
    ∀ (s t : List Char), prefixMatch p s = true → prefixMatch p (s ++ t) = true := by
  induction p with
  | nil => intro s t _; rfl
  | cons c ps ih =>
    intro s t h
    cases s with
    | nil => exact absurd h (by simp [prefixMatch])
    | cons a as =>
      have h2 : (c == a && prefixMatch ps as) = true := h
      simp only [Bool.and_eq_true] at h2
      show (c == a && prefixMatch ps (as ++ t)) = true
      rw [h2.1, ih as t h2.2]
      rfl

theorem prefixMatch_of_append (p : List Char) :
    ∀ (x y : List Char), p.length ≤ x.length → prefixMatch p (x ++ y) = true →
      prefixMatch p x = true := by
  induction p with
  | nil => intro x y _ _; rfl
  | cons c ps ih =>
    intro x y hlen h
    cases x with
    | nil => simp at hlen
    | cons a as =>
      have h2 : (c == a && prefixMatch ps (as ++ y)) = true := h
      simp only [Bool.and_eq_true] at h2
      show (c == a && prefixMatch ps as) = true
      rw [h2.1, ih as y (by simpa using hlen) h2.2]
      rfl

theorem prefixMatch_head (c : Char) (ps : List Char) (x : Char) (xs : List Char)
    (h : prefixMatch (c :: ps) (x :: xs) = true) : c = x := by
  have h2 : (c == x && prefixMatch ps xs) = true := h
  simp only [Bool.and_eq_true] at h2
  exact beq_iff_eq.mp h2.1

theorem replaceFirst_at_head : ∀ (p t : List Char), replaceFirst p (p ++ t) = t
  | [], t => by cases t <;> rfl
  | c :: ps, t => by
    show replaceFirst (c :: ps) (c :: (ps ++ t)) = t
    unfold replaceFirst
    rw [if_pos (show prefixMatch (c :: ps) (c :: (ps ++ t)) = true from
      prefixMatch_append_self (c :: ps) t)]
    exact List.drop_left (c :: ps) t

theorem replaceFirst_skip (c : Char) (ps : List Char) :
    ∀ (s t : List Char), c ∉ s →
      replaceFirst (c :: ps) (s ++ t) = s ++ replaceFirst (c :: ps) t := by
  intro s
  induction s with
  | nil => intro t _; rfl
  | cons x xs ih =>
    intro t hc
    rw [List.cons_append, replaceFirst]
    rw [if_neg (fun hpm => (hc (prefixMatch_head c ps x (xs ++ t) hpm ▸
      List.mem_cons_self x xs)))]
    rw [ih t (fun hmem => hc (List.mem_cons_of_mem x hmem))]
    rw [List.cons_append]

theorem chunksAux_flatten : ∀ (fuel : Nat) (l : List Char), l.length ≤ fuel →
    (chunksAux fuel l).flatten = l
  | fuel, [], _ => by cases fuel <;> rfl
  | 0, c :: r, h => absurd h (by simp)
  | fuel + 1, c :: r, h => by
    show ((c :: r).take 64 :: chunksAux fuel ((c :: r).drop 64)).flatten = c :: r
    rw [List.flatten_cons]
    rw [chunksAux_flatten fuel ((c :: r).drop 64) (by
      rw [List.length_drop]
      simp only [List.length_cons] at h ⊢
      omega)]
    exact List.take_append_drop 64 (c :: r)

theorem chunks64_flatten (l : List Char) : (chunks64 l).flatten = l :=
  chunksAux_flatten l.length l (Nat.le_refl _)

theorem stripWs_append (a b : List Char) : stripWs (a ++ b) = stripWs a ++ stripWs b := by
  simp [stripWs]

theorem stripWs_of_noWs (l : List Char) (h : ∀ c ∈ l, isWsChar c = false) :
    stripWs l = l :=
  List.filter_eq_self.mpr (fun a ha => by rw [h a ha]; rfl)

theorem joinNL_last : ∀ (ls : List (List Char)) (e : List Char),
    ∃ mid, joinNL (ls ++ [e]) = mid ++ e
      ∧ (∀ c ∈ mid, c ∈ ls.flatten ∨ c = '\n')
      ∧ stripWs mid = stripWs ls.flatten
  | [], e => ⟨[], rfl, by simp, rfl⟩
  | [l], e => by
    refine ⟨l ++ ['\n'], ?_, ?_, ?_⟩
    · show l ++ '\n' :: joinNL [e] = (l ++ ['\n']) ++ e
      show l ++ '\n' :: e = (l ++ ['\n']) ++ e
      simp
    · intro c hc
      rcases List.mem_append.mp hc with hc | hc
      · exact Or.inl (by simpa using hc)
      · exact Or.inr (by simpa using hc)
    · rw [stripWs_append]
      have : stripWs ['\n'] = [] := rfl
      rw [this, List.append_nil]
      simp [stripWs]
  | l :: l2 :: ls, e => by
    obtain ⟨mid, hmid, hchars, hstrip⟩ := joinNL_last (l2 :: ls) e
    refine ⟨l ++ '\n' :: mid, ?_, ?_, ?_⟩
    · show l ++ '\n' :: joinNL ((l2 :: ls) ++ [e]) = (l ++ '\n' :: mid) ++ e
      rw [hmid]
      simp
    · intro c hc
      rcases List.mem_append.mp hc with hc | hc
      · left
        rw [List.flatten_cons]
        exact List.mem_append_left _ hc
      · rcases List.mem_cons.mp hc with hc | hc
        · exact Or.inr hc
        · rcases hchars c hc with h1 | h1
          · left
            rw [List.flatten_cons]
            exact List.mem_append_right _ h1
          · exact Or.inr h1
    · show stripWs (l ++ '\n' :: mid) = stripWs ((l :: l2 :: ls).flatten)
      rw [stripWs_append, List.flatten_cons, stripWs_append]
      have h1 : stripWs ('\n' :: mid) = stripWs mid := rfl
      rw [h1, hstrip]

theorem replaceFirst_self (p : List Char) : replaceFirst p p = [] := by
  have h := replaceFirst_at_head p []
  rwa [List.append_nil] at h

theorem endMarker_head (isPublic : Bool) :
    ∃ rest, (endMarkerOf isPublic).toList = '-' :: rest := by
  cases isPublic
  · exact ⟨"----END PRIVATE KEY-----".toList, rfl⟩
  · exact ⟨"----END PUBLIC KEY-----".toList, rfl⟩

theorem extract_mkPem (isPublic : Bool) (b64 : List Char)
    (hchars : ∀ c ∈ b64, c ∈ b64Chars ∨ c = '=') :
    extractContent (mkPem isPublic b64) isPublic = b64 := by
  have hnows : ∀ c ∈ b64, isWsChar c = false := by
    intro c hc
    rcases hchars c hc with h | h
    · exact Bool.not_eq_true _ ▸ by
        have := (b64Chars_props c h).1
        revert this
        cases isWsChar c <;> simp
    · rw [h]
      rfl
  have hnotdash : ∀ c ∈ b64, c ≠ '-' := by
    intro c hc
    rcases hchars c hc with h | h
    · exact (b64Chars_props c h).2.1
    · rw [h]
      decide
  obtain ⟨mid, hmid, hchars2, hstrip⟩ :=
    joinNL_last (chunks64 b64) (endMarkerOf isPublic).toList
  have hrest : chunks64 b64 ++ [(endMarkerOf isPublic).toList] ≠ [] := by
    simp
  have hjoin : joinNL ((beginMarkerOf isPublic).toList
      :: (chunks64 b64 ++ [(endMarkerOf isPublic).toList]))
      = (beginMarkerOf isPublic).toList
        ++ '\n' :: joinNL (chunks64 b64 ++ [(endMarkerOf isPublic).toList]) := by
    rcases he : chunks64 b64 ++ [(endMarkerOf isPublic).toList] with _ | ⟨l, ls⟩
    · exact absurd he hrest
    · rfl
  have hmemChar : ∀ c ∈ '\n' :: mid, c ≠ '-' := by
    intro c hc
    rcases List.mem_cons.mp hc with hc | hc
    · rw [hc]
      decide
    · rcases hchars2 c hc with h1 | h1
      · rw [chunks64_flatten] at h1
        exact hnotdash c h1
      · rw [h1]
        decide
  unfold extractContent mkPem
  rw [show ([(beginMarkerOf isPublic).toList] ++ chunks64 b64
      ++ [(endMarkerOf isPublic).toList])
    = (beginMarkerOf isPublic).toList
      :: (chunks64 b64 ++ [(endMarkerOf isPublic).toList]) from by simp]
  rw [show (String.mk (joinNL ((beginMarkerOf isPublic).toList
    :: (chunks64 b64 ++ [(endMarkerOf isPublic).toList])))).toList
    = joinNL ((beginMarkerOf isPublic).toList
      :: (chunks64 b64 ++ [(endMarkerOf isPublic).toList])) from rfl]
  rw [hjoin, replaceFirst_at_head, hmid]
  obtain ⟨erest, hehead⟩ := endMarker_head isPublic
  rw [hehead]
  rw [show ('\n' :: (mid ++ '-' :: erest)) = ('\n' :: mid) ++ '-' :: erest from by simp]
  rw [replaceFirst_skip '-' erest ('\n' :: mid) ('-' :: erest)
    (fun hmem => (hmemChar '-' hmem) rfl)]
  rw [replaceFirst_self, List.append_nil]
  rw [show stripWs ('\n' :: mid) = stripWs mid from rfl]
  rw [hstrip, chunks64_flatten]
  exact stripWs_of_noWs b64 hnows

/-- Content of the generated PEM decodes back to the DER bytes. -/
theorem pem_roundtrip_der (isPublic : Bool) (derBytes : List Nat)
    (hbound : ∀ x ∈ derBytes, x < 256) :
    b64Decode (extractContent (mkPem isPublic (b64Encode derBytes)) isPublic)
      = some derBytes := by
  rw [extract_mkPem isPublic _ (b64Encode_chars derBytes)]
  exact b64_round derBytes hbound

theorem strFind_append (pat : List Char) :
    ∀ (a b : List Char) (i : Nat), strFind pat a = some i →
      i + pat.length ≤ a.length → strFind pat (a ++ b) = some i := by
  intro a
  induction a with
  | nil =>
    intro b i h hlen
    rcases hp : pat with _ | ⟨c, ps⟩
    · rw [hp] at h
      have : i = 0 := by
        simp [strFind] at h
        omega
      rw [this]
      cases b with
      | nil => rfl
      | cons x xs =>
        show strFind [] (x :: xs) = some 0
        unfold strFind
        rw [if_pos (show prefixMatch [] (x :: xs) = true from rfl)]
    · rw [hp] at h
      simp [strFind] at h
  | cons x xs ih =>
    intro b i h hlen
    rw [List.cons_append]
    by_cases hpm : prefixMatch pat (x :: xs) = true
    · have hi : i = 0 := by
        unfold strFind at h
        rw [if_pos hpm] at h
        exact (Option.some.inj h).symm
      rw [hi]
      unfold strFind
      rw [if_pos (show prefixMatch pat (x :: (xs ++ b)) = true from by
        have := prefixMatch_append_left pat (x :: xs) b hpm
        rw [List.cons_append] at this
        exact this)]
    · unfold strFind at h
      rw [if_neg hpm] at h
      rcases Option.map_eq_some'.mp h with ⟨j, hj, hij⟩
      have hlen2 : pat.length ≤ xs.length + 1 := by
        simp only [List.length_cons] at hlen
        omega
      unfold strFind
      rw [if_neg (fun habs => hpm (prefixMatch_of_append pat (x :: xs) b
        (by simpa using hlen2) (by rw [List.cons_append]; exact habs)))]
      rw [ih b j hj (by
        simp only [List.length_cons] at hlen
        omega)]
      rw [← hij]
      rfl

theorem jsSubstring_middle (a b : List Char) :
    jsSubstring (a ++ b) a.length (a.length + b.length) = b := by
  unfold jsSubstring
  rw [List.drop_left]
  rw [Nat.add_sub_cancel_left]
  exact List.take_of_length_le (Nat.le_refl _)

theorem jsSubstring_middle2 (a b c : List Char) :
    jsSubstring (a ++ b ++ c) a.length (a.length + b.length) = b := by
  unfold jsSubstring
  rw [List.append_assoc, List.drop_left, Nat.add_sub_cancel_left]
  exact List.take_left b c

theorem strMk_toList (s : String) : String.mk s.toList = s := rfl

/- ## Claim C6 -/

/-- Counterexample to C6 as stated: a PEM whose decoded body is the 33
bytes `02 03 42 00 00...` (beginning with 0x02) hits the DER-marker scan
first, so `pemToHex` returns a 58-character substring instead of the
33 bytes as hex verbatim. -/
theorem c6_counterexample :
    b64Decode (extractContent
        "-----BEGIN PUBLIC KEY-----\nAgNCAAAAAAAAAAAAAAAAAAAAAAAAAAAAAAAAAAAAAAAA\n-----END PUBLIC KEY-----"
        true)
      = some (2 :: 3 :: 66 :: List.replicate 30 0)
    ∧ (2 :: 3 :: 66 :: List.replicate 30 0 : List Nat).length = 33
    ∧ (2 :: 3 :: 66 :: List.replicate 30 0 : List Nat).head? = some 2
    ∧ pemToHex
        "-----BEGIN PUBLIC KEY-----\nAgNCAAAAAAAAAAAAAAAAAAAAAAAAAAAAAAAAAAAAAAAA\n-----END PUBLIC KEY-----"
        true
      = Except.ok (String.mk (List.replicate 58 '0'))
    ∧ String.mk (List.replicate 58 '0')
        ≠ String.mk (bytesToHexChars (2 :: 3 :: 66 :: List.replicate 30 0)) :=
  ⟨rfl, rfl, rfl, rfl, by decide⟩

/-- C6 amended: for every PEM public-key input whose decoded body is
exactly 33 bytes, begins with 0x02 or 0x03, and whose hex does not
contain the compressed-point DER marker `034200`, `pemToHex` returns
those 33 bytes as hex verbatim; and every marker-free decoded body whose
length lies outside 32..65 bytes makes `pemToHex` fail. -/
theorem c6_pem_public_shapes (pemKey : String) (body : List Nat)
    (hdec : b64Decode (extractContent pemKey true) = some body)
    (hmark : strFind "034200".toList (bytesToHexChars body) = none) :
    (body.length = 33 → (body.head? = some 2 ∨ body.head? = some 3) →
      pemToHex pemKey true = Except.ok (String.mk (bytesToHexChars body)))
    ∧ ((body.length < 32 ∨ 65 < body.length) →
      ∃ e, pemToHex pemKey true = Except.error e) := by
  constructor
  · intro hlen hhead
    unfold pemToHex
    rw [hdec]
    dsimp only
    rw [hmark]
    dsimp only
    rw [if_pos (show body.length = 33
      ∧ (body.head? = some 2 ∨ body.head? = some 3) from ⟨hlen, hhead⟩)]
    rfl
  · intro hout
    unfold pemToHex
    rw [hdec]
    dsimp only
    rw [hmark]
    dsimp only
    rw [if_neg (fun hc => by omega : ¬(body.length = 33
      ∧ (body.head? = some 2 ∨ body.head? = some 3)))]
    rw [if_neg (fun hc => by omega : ¬body.length = 32)]
    rw [if_neg (fun hc => by omega : ¬(body.length = 65 ∧ body.head? = some 4))]
    rw [if_neg (fun hc => by omega : ¬(32 ≤ body.length ∧ body.length ≤ 65))]
    exact ⟨_, rfl⟩

/-- Witness for C6 amended at a marker-free 33-byte compressed-point
body. -/
theorem c6_witness :
    pemToHex
        "-----BEGIN PUBLIC KEY-----\nAgAAAAAAAAAAAAAAAAAAAAAAAAAAAAAAAAAAAAAAAAAA\n-----END PUBLIC KEY-----"
        true
      = Except.ok (String.mk (bytesToHexChars (2 :: List.replicate 32 0))) :=
  (c6_pem_public_shapes
    "-----BEGIN PUBLIC KEY-----\nAgAAAAAAAAAAAAAAAAAAAAAAAAAAAAAAAAAAAAAAAAAA\n-----END PUBLIC KEY-----"
    (2 :: List.replicate 32 0) rfl rfl).1 rfl (Or.inl rfl)

/- ## Claim C7 -/

theorem strToList_append (a b : String) : (a ++ b).toList = a.toList ++ b.toList :=
  String.data_append a b

/-- C7: PEM round-trip of the tolerant codec. For every 33-byte
compressed public key in lower-hex form, `pemToHex (hexToPem h PUBLIC)
PUBLIC = h`; and for every 32-byte private scalar in lower-hex form,
`pemToHex (hexToPem k PRIVATE) PRIVATE = k`, where the derivation oracle
returns the signer's 33-byte compressed public point in lower-hex
form. -/
theorem c7_pem_round_trip (getPub : String → String) (h k : String)
    (hh1 : ∀ c ∈ h.toList, isLHex c = true) (hh2 : h.toList.length = 66)
    (hh3 : h.toList.take 2 = ['0', '2'] ∨ h.toList.take 2 = ['0', '3'])
    (hk1 : ∀ c ∈ k.toList, isLHex c = true) (hk2 : k.toList.length = 64)
    (hp1 : ∀ c ∈ (getPub k).toList, isLHex c = true)
    (hp2 : (getPub k).toList.length = 66) :
    ((hexToPem getPub h true).bind (fun pem => pemToHex pem true) = Except.ok h)
    ∧ ((hexToPem getPub k false).bind (fun pem => pemToHex pem false) = Except.ok k) := by
  have hpubHex : ∀ c ∈ pubDerHead.toList, isLHex c = true := by decide
  have hprivHex : ∀ c ∈ privDerHead.toList, isLHex c = true := by decide
  have haHex : ∀ c ∈ ("a144034200" : String).toList, isLHex c = true := by decide
  constructor
  · obtain ⟨hb, hhb, -, -⟩ := hexRT h.toList hh1 (by rw [hh2])
    have hdl : (pubDerHead ++ h).toList = pubDerHead.toList ++ h.toList :=
      strToList_append pubDerHead h
    have hderhex : ∀ c ∈ (pubDerHead ++ h).toList, isLHex c = true := by
      rw [hdl]
      intro c hc
      rcases List.mem_append.mp hc with hc | hc
      · exact hpubHex c hc
      · exact hh1 c hc
    have hdereven : (pubDerHead ++ h).toList.length % 2 = 0 := by
      rw [hdl, List.length_append, hh2]
      decide
    obtain ⟨db, hdb, hback, hbound⟩ := hexRT (pubDerHead ++ h).toList hderhex hdereven
    have hpem : hexToPem getPub h true = Except.ok (mkPem true (b64Encode db)) := by
      unfold hexToPem
      rw [show hexToBytesE h = Except.ok hb from hhb]
      show (match hexToBytesE (pubDerHead ++ h) with
        | Except.error e => Except.error e
        | Except.ok derBytes => Except.ok (mkPem true (b64Encode derBytes)))
        = Except.ok (mkPem true (b64Encode db))
      rw [show hexToBytesE (pubDerHead ++ h) = Except.ok db from hdb]
    have hdecode : pemToHex (mkPem true (b64Encode db)) true = Except.ok h := by
      unfold pemToHex
      rw [pem_roundtrip_der true db hbound]
      dsimp only
      rw [hback, hdl]
      rw [strFind_append ("034200".toList) pubDerHead.toList h.toList 40
        (by decide) (by decide)]
      dsimp only
      have hsub : jsSubstring (pubDerHead.toList ++ h.toList) (40 + 6) (40 + 6 + 66)
          = h.toList := by
        have e1 : (40 + 6 : Nat) = pubDerHead.toList.length := by decide
        have e2 : (40 + 6 + 66 : Nat) = pubDerHead.toList.length + h.toList.length := by
          rw [hh2]
          decide
        rw [e2, e1, jsSubstring_middle]
      rw [hsub]
      rfl
    rw [hpem]
    show pemToHex (mkPem true (b64Encode db)) true = Except.ok h
    exact hdecode
  · obtain ⟨kb, hkb, -, -⟩ := hexRT k.toList hk1 (by rw [hk2])
    have hdl2 : (privDerHead ++ k ++ "a144034200" ++ getPub k).toList
        = ((privDerHead.toList ++ k.toList) ++ ("a144034200" : String).toList)
          ++ (getPub k).toList := by
      rw [strToList_append, strToList_append, strToList_append]
    have hderhex2 : ∀ c ∈ (privDerHead ++ k ++ "a144034200" ++ getPub k).toList,
        isLHex c = true := by
      rw [hdl2]
      intro c hc
      rcases List.mem_append.mp hc with hc | hc
      · rcases List.mem_append.mp hc with hc | hc
        · rcases List.mem_append.mp hc with hc | hc
          · exact hprivHex c hc
          · exact hk1 c hc
        · exact haHex c hc
      · exact hp1 c hc
    have hdereven2 : (privDerHead ++ k ++ "a144034200" ++ getPub k).toList.length % 2
        = 0 := by
      rw [hdl2, List.length_append, List.length_append, List.length_append, hk2, hp2]
      decide
    obtain ⟨db2, hdb2, hback2, hbound2⟩ :=
      hexRT (privDerHead ++ k ++ "a144034200" ++ getPub k).toList hderhex2 hdereven2
    have hpem2 : hexToPem getPub k false = Except.ok (mkPem false (b64Encode db2)) := by
      unfold hexToPem
      rw [show hexToBytesE k = Except.ok kb from hkb]
      show (match hexToBytesE (privDerHead ++ k ++ "a144034200" ++ getPub k) with
        | Except.error e => Except.error e
        | Except.ok derBytes => Except.ok (mkPem false (b64Encode derBytes)))
        = Except.ok (mkPem false (b64Encode db2))
      rw [show hexToBytesE (privDerHead ++ k ++ "a144034200" ++ getPub k)
        = Except.ok db2 from hdb2]
    have hfind : strFind "0420".toList
        (((privDerHead.toList ++ k.toList) ++ ("a144034200" : String).toList)
          ++ (getPub k).toList) = some 68 := by
      apply strFind_append
      · apply strFind_append
        · apply strFind_append
          · decide
          · decide
        · rw [List.length_append, hk2]
          decide
      · rw [List.length_append, List.length_append, hk2]
        decide
    have hsub2 : jsSubstring
        (((privDerHead.toList ++ k.toList) ++ ("a144034200" : String).toList)
          ++ (getPub k).toList) (68 + 4) (68 + 4 + 64) = k.toList := by
      have e1 : (68 + 4 : Nat) = privDerHead.toList.length := by decide
      have e2 : (68 + 4 + 64 : Nat) = privDerHead.toList.length + k.toList.length := by
        rw [hk2]
        decide
      rw [e2, e1]
      rw [List.append_assoc (privDerHead.toList ++ k.toList)]
      exact jsSubstring_middle2 _ _ _
    have hdecode2 : pemToHex (mkPem false (b64Encode db2)) false = Except.ok k := by
      unfold pemToHex
      rw [pem_roundtrip_der false db2 hbound2]
      dsimp only
      rw [hback2, hdl2]
      rw [hfind]
      dsimp only
      rw [hsub2]
      rw [if_pos hk2]
      rfl
    rw [hpem2]
    show pemToHex (mkPem false (b64Encode db2)) false = Except.ok k
    exact hdecode2

/-- Witness for C7 at a concrete compressed public key and private
scalar (all-zero coordinates, which only exercise the codec, not the
curve). -/
theorem c7_witness :
    ((hexToPem (fun _ => "020000000000000000000000000000000000000000000000000000000000000000")
        "020000000000000000000000000000000000000000000000000000000000000000" true).bind
      (fun pem => pemToHex pem true)
      = Except.ok "020000000000000000000000000000000000000000000000000000000000000000")
    ∧ ((hexToPem (fun _ => "020000000000000000000000000000000000000000000000000000000000000000")
        "0000000000000000000000000000000000000000000000000000000000000000" false).bind
      (fun pem => pemToHex pem false)
      = Except.ok "0000000000000000000000000000000000000000000000000000000000000000") :=
  c7_pem_round_trip
    (fun _ => "020000000000000000000000000000000000000000000000000000000000000000")
    "020000000000000000000000000000000000000000000000000000000000000000"
    "0000000000000000000000000000000000000000000000000000000000000000"
    (by decide) (by decide) (Or.inl (by decide)) (by decide) (by decide)
    (by decide) (by decide)
